import Mathlib

/-
Shallow embedding of the rforth interpreter (src/token.rs, src/parser.rs,
src/number_ops.rs, src/stack_ops.rs, src/eval.rs, src/main.rs).

Conventions of the embedding:
* Rust `i64` values are modelled as `Int`; none of the verified claims
  involves wrap-around, and `i64` division/remainder truncate toward zero,
  which is `Int.tdiv` / `Int.tmod`.
* The operand stack `Vec<i64>` grows at the tail in Rust; here it is a
  `List Int` whose HEAD is the top of the stack, so Rust `push` is `cons`
  and Rust `pop` takes the head.  A Rust vector `vec![a, b, c]` (top `c`)
  corresponds to the list `[c, b, a]`.
* The loop control stack `Vec<(usize, i64, i64)>` likewise has its top at
  the head of the list.
* `HashMap<String, Vec<ForthOp>>` is modelled as an association list where
  `insert` replaces the previous binding and `get` takes the binding of
  the key (dictFind / dictInsert below).
* Functions taking `&mut Vec<i64>` that can fail return the error TOGETHER
  with the stack as mutated up to the failure point (Rust leaves the
  mutations in place when returning `Err`).
* The recursive evaluator and parser are total functions driven by a fuel
  parameter; running out of fuel yields `none`, never a wrong answer.
-/

set_option maxRecDepth 20000

namespace RForth

/-! ASCII case mapping, modelling Rust `str::to_uppercase` /
`str::to_lowercase` on the ASCII strings this interpreter deals in. -/

def upChar (c : Char) : Char :=
  if 97 ≤ c.toNat ∧ c.toNat ≤ 122 then Char.ofNat (c.toNat - 32) else c

def downChar (c : Char) : Char :=
  if 65 ≤ c.toNat ∧ c.toNat ≤ 90 then Char.ofNat (c.toNat + 32) else c

def strUpper (s : String) : String := ⟨s.data.map upChar⟩

def strLower (s : String) : String := ⟨s.data.map downChar⟩

/-! Tokens (src/token.rs).  The lexer itself (regex-driven) is external;
claims only need the token data type that the parser consumes. -/

inductive Token where
  | Whitespace
  | Comment
  | LineComment
  | Colon
  | Semicolon
  | Integer (i : Int)
  | Word (s : String)
deriving DecidableEq

/-! Operations (src/parser.rs, `enum ForthOp`). -/

inductive ForthOp where
  | Push (i : Int)
  | Add
  | Subtract
  | Multiply
  | Divide
  | Mod
  | Dup
  | Drop
  | Swap
  | Over
  | Rot
  | QDup
  | TwoDup
  | TwoDrop
  | TwoSwap
  | TwoOver
  | MinusRot
  | Print
  | PrintStack
  | Word (s : String)
  | Define (name : String) (body : List ForthOp)
  | IfElse (thenOps : List ForthOp) (elseOps : List ForthOp)
  | Eq
  | Lt
  | Gt
  | Do
  | Loop
  | I

/- Structural equality on operations, modelling the derived `PartialEq`
on `ForthOp` (which compares nested bodies element by element). -/
mutual
def ForthOp.beqOp : ForthOp → ForthOp → Bool
  | .Push a, .Push b => a == b
  | .Add, .Add => true
  | .Subtract, .Subtract => true
  | .Multiply, .Multiply => true
  | .Divide, .Divide => true
  | .Mod, .Mod => true
  | .Dup, .Dup => true
  | .Drop, .Drop => true
  | .Swap, .Swap => true
  | .Over, .Over => true
  | .Rot, .Rot => true
  | .QDup, .QDup => true
  | .TwoDup, .TwoDup => true
  | .TwoDrop, .TwoDrop => true
  | .TwoSwap, .TwoSwap => true
  | .TwoOver, .TwoOver => true
  | .MinusRot, .MinusRot => true
  | .Print, .Print => true
  | .PrintStack, .PrintStack => true
  | .Word a, .Word b => a == b
  | .Define n1 b1, .Define n2 b2 => n1 == n2 && ForthOp.beqList b1 b2
  | .IfElse t1 e1, .IfElse t2 e2 => ForthOp.beqList t1 t2 && ForthOp.beqList e1 e2
  | .Eq, .Eq => true
  | .Lt, .Lt => true
  | .Gt, .Gt => true
  | .Do, .Do => true
  | .Loop, .Loop => true
  | .I, .I => true
  | _, _ => false

def ForthOp.beqList : List ForthOp → List ForthOp → Bool
  | [], [] => true
  | a :: as', b :: bs' => ForthOp.beqOp a b && ForthOp.beqList as' bs'
  | _, _ => false
end

instance : BEq ForthOp := ⟨ForthOp.beqOp⟩

/-! Parse errors (src/parser.rs, `enum ParseError`). -/

inductive ParseError where
  | UnexpectedToken (t : Token)
  | ExpectedWordName
  | UnterminatedDefinition
  | NestedDefinitionNotSupported
  | UnterminatedConditional
  | MismatchedDoLoop
  | ControlWordOutsideDefinition (s : String)
deriving DecidableEq

/-! Evaluation errors (src/eval.rs, `enum EvalError`). -/

inductive EvalError where
  | StackUnderflow
  | DivisionByZero
  | UnknownWord (s : String)
  | CompileOnlyWord (s : String)
  | LoopStackUnderflow
  | ControlStructureMismatch
deriving DecidableEq

/-! The parser (src/parser.rs). -/

/-- `parse_token_to_op` of src/parser.rs: the fixed, case-insensitive table
mapping reserved spellings to built-in operations; any other word becomes a
bare `ForthOp.Word`.  `Colon` / `Semicolon` (and skipped trivia) map to
`none`, as in the Rust `_ => None` arm. -/
def parse_token_to_op : Token → Option ForthOp
  | .Integer i => some (.Push i)
  | .Word s =>
    match strLower s with
    | "=" => some .Eq
    | "<" => some .Lt
    | ">" => some .Gt
    | "+" => some .Add
    | "-" => some .Subtract
    | "*" => some .Multiply
    | "/" => some .Divide
    | "mod" => some .Mod
    | "." => some .Print
    | ".s" => some .PrintStack
    | "dup" => some .Dup
    | "drop" => some .Drop
    | "swap" => some .Swap
    | "over" => some .Over
    | "rot" => some .Rot
    | "?dup" => some .QDup
    | "2dup" => some .TwoDup
    | "2drop" => some .TwoDrop
    | "2swap" => some .TwoSwap
    | "2over" => some .TwoOver
    | "-rot" => some .MinusRot
    | _ => some (.Word s)
  | _ => none

/-- The token-collection loop of the compile-mode `if` arm of `parse`
(src/parser.rs): starting right after an `if` word, scan forward tracking
nested `if` depth, splitting tokens into a then-branch and an else-branch.
Returns `some (thenToks, elseToks, inElse, rest)` when the matching `then`
was found (`rest` = tokens after it); `none` when input ran out first,
which `parse` turns into `UnterminatedConditional`. -/
def collectIf : List Token → Nat → Bool → List Token → List Token →
    Option (List Token × List Token × Bool × List Token)
  | [], _, _, _, _ => none
  | t :: ts, depth, inElse, accThen, accElse =>
    match t with
    | .Word w =>
      let wl := strLower w
      if wl = "if" then
        if inElse then collectIf ts (depth + 1) inElse accThen (accElse ++ [t])
        else collectIf ts (depth + 1) inElse (accThen ++ [t]) accElse
      else if wl = "else" ∧ depth = 1 then
        collectIf ts depth true accThen accElse
      else if wl = "then" then
        if depth = 1 then some (accThen, accElse, inElse, ts)
        else if inElse then collectIf ts (depth - 1) inElse accThen (accElse ++ [t])
        else collectIf ts (depth - 1) inElse (accThen ++ [t]) accElse
      else if inElse then collectIf ts depth inElse accThen (accElse ++ [t])
      else collectIf ts depth inElse (accThen ++ [t]) accElse
    | _ =>
      if inElse then collectIf ts depth inElse accThen (accElse ++ [t])
      else collectIf ts depth inElse (accThen ++ [t]) accElse

/-- The main loop of `parse` (src/parser.rs), with the iterator state made
explicit: remaining tokens, `compiling` flag, name and accumulated body of
the open definition, `loop_depth`, and the accumulated top-level `ops`.
Fuel decreases on every recursive call; `none` means fuel ran out (for the
fuel chosen by `parse` below this never happens). -/
def parseGo : Nat → List Token → Bool → Option String → List ForthOp → Nat →
    List ForthOp → Option (Except ParseError (List ForthOp))
  | 0, _, _, _, _, _, _ => none
  | _ + 1, [], compiling, _, _, _, ops =>
    if compiling then some (.error .UnterminatedDefinition) else some (.ok ops)
  | fuel + 1, t :: ts, true, defName, defBody, loopDepth, ops =>
    match t with
    | .Whitespace => parseGo fuel ts true defName defBody loopDepth ops
    | .Comment => parseGo fuel ts true defName defBody loopDepth ops
    | .LineComment => parseGo fuel ts true defName defBody loopDepth ops
    | .Semicolon =>
      if loopDepth ≠ 0 then some (.error .MismatchedDoLoop)
      else
        match defName with
        | some name => parseGo fuel ts false none [] 0 (ops ++ [.Define name defBody])
        | none => some (.error .ExpectedWordName)
    | .Colon => some (.error .NestedDefinitionNotSupported)
    | .Integer i =>
      match parse_token_to_op (.Integer i) with
      | some op => parseGo fuel ts true defName (defBody ++ [op]) loopDepth ops
      | none => some (.error (.UnexpectedToken (.Integer i)))
    | .Word s =>
      if strLower s = "if" then
        match collectIf ts 1 false [] [] with
        | none => some (.error .UnterminatedConditional)
        | some (thenToks, elseToks, inElse, rest) =>
          match parseGo fuel thenToks false none [] 0 [] with
          | none => none
          | some (.error e) => some (.error e)
          | some (.ok thenOps) =>
            match (if inElse then parseGo fuel elseToks false none [] 0 [] else some (.ok [])) with
            | none => none
            | some (.error e) => some (.error e)
            | some (.ok elseOps) =>
              parseGo fuel rest true defName (defBody ++ [.IfElse thenOps elseOps]) loopDepth ops
      else if strLower s = "do" then
        parseGo fuel ts true defName (defBody ++ [.Do]) (loopDepth + 1) ops
      else if strLower s = "loop" then
        if loopDepth = 0 then some (.error .MismatchedDoLoop)
        else parseGo fuel ts true defName (defBody ++ [.Loop]) (loopDepth - 1) ops
      else if strLower s = "i" then
        parseGo fuel ts true defName (defBody ++ [.I]) loopDepth ops
      else
        match parse_token_to_op (.Word s) with
        | some op => parseGo fuel ts true defName (defBody ++ [op]) loopDepth ops
        | none => some (.error (.UnexpectedToken (.Word s)))
  | fuel + 1, t :: ts, false, defName, defBody, loopDepth, ops =>
    match t with
    | .Whitespace => parseGo fuel ts false defName defBody loopDepth ops
    | .Comment => parseGo fuel ts false defName defBody loopDepth ops
    | .LineComment => parseGo fuel ts false defName defBody loopDepth ops
    | .Colon =>
      match ts with
      | .Word name :: ts' => parseGo fuel ts' true (some (strUpper name)) [] loopDepth ops
      | _ => some (.error .ExpectedWordName)
    | .Semicolon => some (.error (.UnexpectedToken .Semicolon))
    | .Integer i =>
      match parse_token_to_op (.Integer i) with
      | some op => parseGo fuel ts false defName defBody loopDepth (ops ++ [op])
      | none => some (.error (.UnexpectedToken (.Integer i)))
    | .Word s =>
      if strLower s = "do" ∨ strLower s = "loop" ∨ strLower s = "i" ∨
         strLower s = "if" ∨ strLower s = "else" ∨ strLower s = "then" then
        some (.error (.ControlWordOutsideDefinition s))
      else
        match parse_token_to_op (.Word s) with
        | some op => parseGo fuel ts false defName defBody loopDepth (ops ++ [op])
        | none => some (.error (.UnexpectedToken (.Word s)))

/-- `parse` of src/parser.rs.  One unit of fuel is spent per token consumed
(the `Colon`-plus-name step consumes two tokens for one unit) and branch
parses always receive strictly fewer tokens than remain, so
`tokens.length + 1` fuel always suffices; theorems about concrete or
structurally constrained inputs exhibit the `some` result directly. -/
def parse (tokens : List Token) : Option (Except ParseError (List ForthOp)) :=
  parseGo (tokens.length + 1) tokens false none [] 0 []

/-- The cumulative-buffer retry logic of `process_line` (src/main.rs),
specialised to two chunks of tokens: parse the first chunk; on success the
buffer is cleared (the second chunk is then parsed alone); on the two
"incomplete" errors the buffer is kept and the concatenation is re-parsed;
on a malformed error the buffer is discarded. -/
def parseTwoChunks (c1 c2 : List Token) : Option (Except ParseError (List ForthOp)) :=
  match parse c1 with
  | some (.ok _) => parse c2
  | some (.error .UnterminatedDefinition) => parse (c1 ++ c2)
  | some (.error .UnterminatedConditional) => parse (c1 ++ c2)
  | some (.error _) => parse c2
  | none => none

/-! Arithmetic and comparison operations (src/number_ops.rs).  Each takes
the operand stack and returns either the new stack, or the error paired
with the stack as already mutated by the pops that preceded the failure. -/

/-- Result of a primitive stack operation: `ok` new stack, or error together
with the residual (already mutated) stack. -/
def StackR : Type := Except (EvalError × List Int) (List Int)

namespace number_ops

def add : List Int → StackR
  | b :: a :: rest => .ok ((a + b) :: rest)
  | _ => .error (.StackUnderflow, [])

def subtract : List Int → StackR
  | b :: a :: rest => .ok ((a - b) :: rest)
  | _ => .error (.StackUnderflow, [])

def multiply : List Int → StackR
  | b :: a :: rest => .ok ((a * b) :: rest)
  | _ => .error (.StackUnderflow, [])

def divide : List Int → StackR
  | b :: a :: rest =>
    if b = 0 then .error (.DivisionByZero, rest) else .ok (Int.tdiv a b :: rest)
  | _ => .error (.StackUnderflow, [])

/-- Modelled from the spec: `number_ops::mod_op` is called from the
`ForthOp::Mod` arm of `eval` (src/eval.rs) but its definition is not among
the sources under src/.  Per the spec, modulo pops its two operands like
division and "additionally fail[s] on a zero divisor", producing the
remainder otherwise; Rust `%` on `i64` truncates toward zero, i.e.
`Int.tmod`. -/
def mod_op : List Int → StackR
  | b :: a :: rest =>
    if b = 0 then .error (.DivisionByZero, rest) else .ok (Int.tmod a b :: rest)
  | _ => .error (.StackUnderflow, [])

def eq : List Int → StackR
  | b :: a :: rest => .ok ((if a = b then -1 else 0) :: rest)
  | _ => .error (.StackUnderflow, [])

def lt : List Int → StackR
  | b :: a :: rest => .ok ((if a < b then -1 else 0) :: rest)
  | _ => .error (.StackUnderflow, [])

def gt : List Int → StackR
  | b :: a :: rest => .ok ((if b < a then -1 else 0) :: rest)
  | _ => .error (.StackUnderflow, [])

end number_ops

/-! Stack-shuffle operations (src/stack_ops.rs).  These check the depth
first (`check_depth!`) and leave the stack untouched on underflow. -/

namespace stack_ops

def dup : List Int → StackR
  | x :: rest => .ok (x :: x :: rest)
  | l => .error (.StackUnderflow, l)

def drop_ : List Int → StackR
  | _ :: rest => .ok rest
  | l => .error (.StackUnderflow, l)

def swap : List Int → StackR
  | n2 :: n1 :: rest => .ok (n1 :: n2 :: rest)
  | l => .error (.StackUnderflow, l)

def over : List Int → StackR
  | n2 :: n1 :: rest => .ok (n1 :: n2 :: n1 :: rest)
  | l => .error (.StackUnderflow, l)

def rot : List Int → StackR
  | n3 :: n2 :: n1 :: rest => .ok (n1 :: n3 :: n2 :: rest)
  | l => .error (.StackUnderflow, l)

def q_dup : List Int → StackR
  | x :: rest => .ok (if x ≠ 0 then x :: x :: rest else x :: rest)
  | l => .error (.StackUnderflow, l)

def two_dup : List Int → StackR
  | n2 :: n1 :: rest => .ok (n2 :: n1 :: n2 :: n1 :: rest)
  | l => .error (.StackUnderflow, l)

def two_drop : List Int → StackR
  | _ :: _ :: rest => .ok rest
  | l => .error (.StackUnderflow, l)

def two_swap : List Int → StackR
  | n4 :: n3 :: n2 :: n1 :: rest => .ok (n2 :: n1 :: n4 :: n3 :: rest)
  | l => .error (.StackUnderflow, l)

def two_over : List Int → StackR
  | n4 :: n3 :: n2 :: n1 :: rest => .ok (n2 :: n1 :: n4 :: n3 :: n2 :: n1 :: rest)
  | l => .error (.StackUnderflow, l)

def minus_rot : List Int → StackR
  | n3 :: n2 :: n1 :: rest => .ok (n2 :: n1 :: n3 :: rest)
  | l => .error (.StackUnderflow, l)

end stack_ops

/-! The evaluator (src/eval.rs). -/

/-- The dictionary `HashMap<String, Vec<ForthOp>>`, as an association list;
`dictInsert` replaces any previous binding of the key, like
`HashMap::insert`. -/
def Dict : Type := List (String × List ForthOp)

def dictFind (d : Dict) (k : String) : Option (List ForthOp) :=
  (List.find? (fun p => p.1 == k) d).map (fun p => p.2)

def dictInsert (d : Dict) (k : String) (v : List ForthOp) : Dict :=
  (k, v) :: List.filter (fun p => !(p.1 == k)) d

/-- The mutable state threaded through `eval`: operand stack, dictionary,
and loop control stack of `(loop_start_idx_after_do, current_index, limit)`
frames. -/
structure EvalState where
  stack : List Int
  dictionary : Dict
  loopControl : List (Nat × Int × Int)

/-- Outcome of a (sufficiently fuelled) `eval` call: `Ok(())` with the
final state, or the propagated error with the state as mutated up to the
point of failure (Rust's `&mut` arguments keep those mutations). -/
inductive EvalResult where
  | ok (st : EvalState)
  | err (e : EvalError) (st : EvalState)

/-- Glue for the `op(stack)?` pattern of the simple arms of `eval`: on
success continue with the new stack, on failure return the error with the
residual stack (no rollback). -/
def stepStack (r : StackR) (st : EvalState) (k : EvalState → Option EvalResult) :
    Option EvalResult :=
  match r with
  | .error (e, s') => some (.err e { st with stack := s' })
  | .ok s' => k { st with stack := s' }

/-- The scan loop of `find_matching_end` (src/eval.rs): from `current_idx`,
track nesting `depth`; return the index just after the closing op that
brings the depth to zero.  `rem` bounds the scan; it starts at `ops.length`
which always dominates the number of positions left, so the `rem = 0` arm
coincides with the out-of-bounds error of the Rust loop. -/
def fmeGo (ops : List ForthOp) (open_op close_op : ForthOp) :
    Nat → Nat → Nat → Except EvalError Nat
  | 0, _, _ => .error .ControlStructureMismatch
  | rem + 1, current_idx, depth =>
    match ops[current_idx]? with
    | none => .error .ControlStructureMismatch
    | some op =>
      if op == open_op then fmeGo ops open_op close_op rem (current_idx + 1) (depth + 1)
      else if op == close_op then
        if depth = 1 then .ok (current_idx + 1)
        else fmeGo ops open_op close_op rem (current_idx + 1) (depth - 1)
      else fmeGo ops open_op close_op rem (current_idx + 1) depth

/-- `find_matching_end` of src/eval.rs: find the index just after the
`close_op` matching the `open_op` at `start_idx`. -/
def find_matching_end (ops : List ForthOp) (start_idx : Nat)
    (open_op close_op : ForthOp) : Except EvalError Nat :=
  fmeGo ops open_op close_op ops.length (start_idx + 1) 1

/-- `eval` of src/eval.rs, with the instruction pointer `idx` explicit.
Each iteration of the Rust `while` loop, and each recursive `eval` call,
spends one unit of fuel; `none` means fuel ran out.  The arms follow the
Rust `match op` arm by arm. -/
def evalGo : Nat → List ForthOp → Nat → EvalState → Option EvalResult
  | 0, _, _, _ => none
  | fuel + 1, ops, idx, st =>
    match ops[idx]? with
    | none => some (.ok st)
    | some op =>
      match op with
      | .Push i => evalGo fuel ops (idx + 1) { st with stack := i :: st.stack }
      | .Add => stepStack (number_ops.add st.stack) st (evalGo fuel ops (idx + 1))
      | .Subtract => stepStack (number_ops.subtract st.stack) st (evalGo fuel ops (idx + 1))
      | .Multiply => stepStack (number_ops.multiply st.stack) st (evalGo fuel ops (idx + 1))
      | .Divide => stepStack (number_ops.divide st.stack) st (evalGo fuel ops (idx + 1))
      | .Mod => stepStack (number_ops.mod_op st.stack) st (evalGo fuel ops (idx + 1))
      | .Eq => stepStack (number_ops.eq st.stack) st (evalGo fuel ops (idx + 1))
      | .Lt => stepStack (number_ops.lt st.stack) st (evalGo fuel ops (idx + 1))
      | .Gt => stepStack (number_ops.gt st.stack) st (evalGo fuel ops (idx + 1))
      | .Dup => stepStack (stack_ops.dup st.stack) st (evalGo fuel ops (idx + 1))
      | .Drop => stepStack (stack_ops.drop_ st.stack) st (evalGo fuel ops (idx + 1))
      | .Swap => stepStack (stack_ops.swap st.stack) st (evalGo fuel ops (idx + 1))
      | .Over => stepStack (stack_ops.over st.stack) st (evalGo fuel ops (idx + 1))
      | .Rot => stepStack (stack_ops.rot st.stack) st (evalGo fuel ops (idx + 1))
      | .QDup => stepStack (stack_ops.q_dup st.stack) st (evalGo fuel ops (idx + 1))
      | .TwoDup => stepStack (stack_ops.two_dup st.stack) st (evalGo fuel ops (idx + 1))
      | .TwoDrop => stepStack (stack_ops.two_drop st.stack) st (evalGo fuel ops (idx + 1))
      | .TwoSwap => stepStack (stack_ops.two_swap st.stack) st (evalGo fuel ops (idx + 1))
      | .TwoOver => stepStack (stack_ops.two_over st.stack) st (evalGo fuel ops (idx + 1))
      | .MinusRot => stepStack (stack_ops.minus_rot st.stack) st (evalGo fuel ops (idx + 1))
      | .Print =>
        match st.stack with
        | [] => some (.err .StackUnderflow st)
        | _ :: rest => evalGo fuel ops (idx + 1) { st with stack := rest }
      | .PrintStack => evalGo fuel ops (idx + 1) st
      | .Define name body =>
        evalGo fuel ops (idx + 1) { st with dictionary := dictInsert st.dictionary name body }
      | .I =>
        match st.loopControl with
        | [] => some (.err .LoopStackUnderflow st)
        | (_, currentIndex, _) :: _ =>
          evalGo fuel ops (idx + 1) { st with stack := currentIndex :: st.stack }
      | .Word s =>
        if (["if", "else", "then", "do", "loop", "i"] : List String).contains (strLower s) then
          some (.err (.CompileOnlyWord s) st)
        else
          match dictFind st.dictionary (strUpper s) with
          | some body =>
            match evalGo fuel body 0 st with
            | none => none
            | some (.err e st') => some (.err e st')
            | some (.ok st') => evalGo fuel ops (idx + 1) st'
          | none => some (.err (.UnknownWord s) st)
      | .IfElse thenOps elseOps =>
        match st.stack with
        | [] => some (.err .StackUnderflow st)
        | flag :: rest =>
          match evalGo fuel (if flag ≠ 0 then thenOps else elseOps) 0
              { st with stack := rest } with
          | none => none
          | some (.err e st') => some (.err e st')
          | some (.ok st') => evalGo fuel ops (idx + 1) st'
      | .Do =>
        match st.stack with
        | start :: limit :: rest =>
          if limit ≤ start then
            match find_matching_end ops idx .Do .Loop with
            | .error e => some (.err e { st with stack := rest })
            | .ok nxt => evalGo fuel ops nxt { st with stack := rest }
          else
            evalGo fuel ops (idx + 1)
              { st with stack := rest, loopControl := (idx + 1, start, limit) :: st.loopControl }
        | _ => some (.err .StackUnderflow { st with stack := [] })
      | .Loop =>
        match st.loopControl with
        | [] => some (.err .LoopStackUnderflow st)
        | (loopStart, currentIndex, limit) :: l =>
          if limit ≤ currentIndex + 1 then
            evalGo fuel ops (idx + 1) { st with loopControl := l }
          else
            evalGo fuel ops loopStart
              { st with loopControl := (loopStart, currentIndex + 1, limit) :: l }


/-! Step lemmas: one unfolding equation per kind of operation, used by the
structural theorems below. -/

theorem evalGo_zero (ops : List ForthOp) (idx : Nat) (st : EvalState) :
    evalGo 0 ops idx st = none := rfl

theorem evalGo_done (fuel : Nat) (ops : List ForthOp) (idx : Nat) (st : EvalState)
    (h : ops[idx]? = none) : evalGo (fuel + 1) ops idx st = some (.ok st) := by
  simp only [evalGo, h]

theorem evalGo_push (fuel : Nat) (ops : List ForthOp) (idx : Nat) (st : EvalState)
    (n : Int) (h : ops[idx]? = some (.Push n)) :
    evalGo (fuel + 1) ops idx st =
      evalGo fuel ops (idx + 1) { st with stack := n :: st.stack } := by
  simp only [evalGo, h]

/-- Table of the arms of `eval` that just run a primitive stack operation
and step to the next instruction. -/
def stackFn : ForthOp → Option (List Int → StackR)
  | .Add => some number_ops.add
  | .Subtract => some number_ops.subtract
  | .Multiply => some number_ops.multiply
  | .Divide => some number_ops.divide
  | .Mod => some number_ops.mod_op
  | .Eq => some number_ops.eq
  | .Lt => some number_ops.lt
  | .Gt => some number_ops.gt
  | .Dup => some stack_ops.dup
  | .Drop => some stack_ops.drop_
  | .Swap => some stack_ops.swap
  | .Over => some stack_ops.over
  | .Rot => some stack_ops.rot
  | .QDup => some stack_ops.q_dup
  | .TwoDup => some stack_ops.two_dup
  | .TwoDrop => some stack_ops.two_drop
  | .TwoSwap => some stack_ops.two_swap
  | .TwoOver => some stack_ops.two_over
  | .MinusRot => some stack_ops.minus_rot
  | _ => none

theorem evalGo_stackOp (fuel : Nat) (ops : List ForthOp) (idx : Nat) (st : EvalState)
    (op : ForthOp) (f : List Int → StackR) (h : ops[idx]? = some op)
    (hf : stackFn op = some f) :
    evalGo (fuel + 1) ops idx st = stepStack (f st.stack) st (evalGo fuel ops (idx + 1)) := by
  cases op <;> simp only [stackFn, Option.some.injEq, reduceCtorEq] at hf <;>
    (subst hf; simp only [evalGo, h])

theorem evalGo_print_nil (fuel : Nat) (ops : List ForthOp) (idx : Nat) (st : EvalState)
    (h : ops[idx]? = some .Print) (hs : st.stack = []) :
    evalGo (fuel + 1) ops idx st = some (.err .StackUnderflow st) := by
  simp only [evalGo, h, hs]

theorem evalGo_print_cons (fuel : Nat) (ops : List ForthOp) (idx : Nat) (st : EvalState)
    (x : Int) (rest : List Int) (h : ops[idx]? = some .Print) (hs : st.stack = x :: rest) :
    evalGo (fuel + 1) ops idx st = evalGo fuel ops (idx + 1) { st with stack := rest } := by
  simp only [evalGo, h, hs]

theorem evalGo_printStack (fuel : Nat) (ops : List ForthOp) (idx : Nat) (st : EvalState)
    (h : ops[idx]? = some .PrintStack) :
    evalGo (fuel + 1) ops idx st = evalGo fuel ops (idx + 1) st := by
  simp only [evalGo, h]

theorem evalGo_define (fuel : Nat) (ops : List ForthOp) (idx : Nat) (st : EvalState)
    (name : String) (body : List ForthOp) (h : ops[idx]? = some (.Define name body)) :
    evalGo (fuel + 1) ops idx st =
      evalGo fuel ops (idx + 1) { st with dictionary := dictInsert st.dictionary name body } := by
  simp only [evalGo, h]

theorem evalGo_i_nil (fuel : Nat) (ops : List ForthOp) (idx : Nat) (st : EvalState)
    (h : ops[idx]? = some .I) (hl : st.loopControl = []) :
    evalGo (fuel + 1) ops idx st = some (.err .LoopStackUnderflow st) := by
  simp only [evalGo, h, hl]

theorem evalGo_i_cons (fuel : Nat) (ops : List ForthOp) (idx : Nat) (st : EvalState)
    (r : Nat) (i lim : Int) (l : List (Nat × Int × Int))
    (h : ops[idx]? = some .I) (hl : st.loopControl = (r, i, lim) :: l) :
    evalGo (fuel + 1) ops idx st = evalGo fuel ops (idx + 1) { st with stack := i :: st.stack } := by
  simp only [evalGo, h, hl]

theorem evalGo_word_control (fuel : Nat) (ops : List ForthOp) (idx : Nat) (st : EvalState)
    (s : String) (h : ops[idx]? = some (.Word s))
    (hc : (["if", "else", "then", "do", "loop", "i"] : List String).contains (strLower s) = true) :
    evalGo (fuel + 1) ops idx st = some (.err (.CompileOnlyWord s) st) := by
  simp only [evalGo, h, hc, if_true]

theorem evalGo_word_unknown (fuel : Nat) (ops : List ForthOp) (idx : Nat) (st : EvalState)
    (s : String) (h : ops[idx]? = some (.Word s))
    (hc : (["if", "else", "then", "do", "loop", "i"] : List String).contains (strLower s) = false)
    (hd : dictFind st.dictionary (strUpper s) = none) :
    evalGo (fuel + 1) ops idx st = some (.err (.UnknownWord s) st) := by
  simp only [evalGo, h, hc, hd, Bool.false_eq_true, if_false]

theorem evalGo_word_found (fuel : Nat) (ops : List ForthOp) (idx : Nat) (st : EvalState)
    (s : String) (body : List ForthOp) (h : ops[idx]? = some (.Word s))
    (hc : (["if", "else", "then", "do", "loop", "i"] : List String).contains (strLower s) = false)
    (hd : dictFind st.dictionary (strUpper s) = some body) :
    evalGo (fuel + 1) ops idx st =
      match evalGo fuel body 0 st with
      | none => none
      | some (.err e st') => some (.err e st')
      | some (.ok st') => evalGo fuel ops (idx + 1) st' := by
  simp only [evalGo, h, hc, hd, Bool.false_eq_true, if_false]

theorem evalGo_ifElse_nil (fuel : Nat) (ops : List ForthOp) (idx : Nat) (st : EvalState)
    (thenOps elseOps : List ForthOp) (h : ops[idx]? = some (.IfElse thenOps elseOps))
    (hs : st.stack = []) :
    evalGo (fuel + 1) ops idx st = some (.err .StackUnderflow st) := by
  simp only [evalGo, h, hs]

theorem evalGo_ifElse_cons (fuel : Nat) (ops : List ForthOp) (idx : Nat) (st : EvalState)
    (thenOps elseOps : List ForthOp) (flag : Int) (rest : List Int)
    (h : ops[idx]? = some (.IfElse thenOps elseOps)) (hs : st.stack = flag :: rest) :
    evalGo (fuel + 1) ops idx st =
      match evalGo fuel (if flag ≠ 0 then thenOps else elseOps) 0 { st with stack := rest } with
      | none => none
      | some (.err e st') => some (.err e st')
      | some (.ok st') => evalGo fuel ops (idx + 1) st' := by
  simp only [evalGo, h, hs]

theorem evalGo_do_cons (fuel : Nat) (ops : List ForthOp) (idx : Nat) (st : EvalState)
    (start limit : Int) (rest : List Int)
    (h : ops[idx]? = some .Do) (hs : st.stack = start :: limit :: rest) :
    evalGo (fuel + 1) ops idx st =
      if limit ≤ start then
        match find_matching_end ops idx .Do .Loop with
        | .error e => some (.err e { st with stack := rest })
        | .ok nxt => evalGo fuel ops nxt { st with stack := rest }
      else
        evalGo fuel ops (idx + 1)
          { st with stack := rest, loopControl := (idx + 1, start, limit) :: st.loopControl } := by
  simp only [evalGo, h, hs]

theorem evalGo_do_underflow_nil (fuel : Nat) (ops : List ForthOp) (idx : Nat) (st : EvalState)
    (h : ops[idx]? = some .Do) (hs : st.stack = []) :
    evalGo (fuel + 1) ops idx st = some (.err .StackUnderflow { st with stack := [] }) := by
  simp only [evalGo, h, hs]

theorem evalGo_do_underflow_one (fuel : Nat) (ops : List ForthOp) (idx : Nat) (st : EvalState)
    (x : Int) (h : ops[idx]? = some .Do) (hs : st.stack = [x]) :
    evalGo (fuel + 1) ops idx st = some (.err .StackUnderflow { st with stack := [] }) := by
  simp only [evalGo, h, hs]

theorem evalGo_loop_nil (fuel : Nat) (ops : List ForthOp) (idx : Nat) (st : EvalState)
    (h : ops[idx]? = some .Loop) (hl : st.loopControl = []) :
    evalGo (fuel + 1) ops idx st = some (.err .LoopStackUnderflow st) := by
  simp only [evalGo, h, hl]

theorem evalGo_loop_cons (fuel : Nat) (ops : List ForthOp) (idx : Nat) (st : EvalState)
    (loopStart : Nat) (currentIndex limit : Int) (l : List (Nat × Int × Int))
    (h : ops[idx]? = some .Loop) (hl : st.loopControl = (loopStart, currentIndex, limit) :: l) :
    evalGo (fuel + 1) ops idx st =
      if limit ≤ currentIndex + 1 then
        evalGo fuel ops (idx + 1) { st with loopControl := l }
      else
        evalGo fuel ops loopStart
          { st with loopControl := (loopStart, currentIndex + 1, limit) :: l } := by
  simp only [evalGo, h, hl]



theorem stepStack_congr (r : StackR) (st : EvalState) (k k' : EvalState → Option EvalResult)
    (h : ∀ s, k s = k' s) : stepStack r st k = stepStack r st k' := by
  cases r with
  | error p => rfl
  | ok s => exact h _

/-- Position-shift bisimulation: executing a suffix `b` that contains no
top-level `Do` or `Loop` behaves identically whether `b` is a standalone
operation list or sits at offset `xs.length` inside `xs ++ b`.  (A `Do`
would record, and a `Loop` would consult, absolute indices, which is
exactly what the C3 counterexample exploits.) -/
theorem evalGo_shift (xs b : List ForthOp)
    (hb : ∀ op ∈ b, op ≠ ForthOp.Do ∧ op ≠ ForthOp.Loop) :
    ∀ fuel i st, evalGo fuel (xs ++ b) (xs.length + i) st = evalGo fuel b i st := by
  intro fuel
  induction fuel with
  | zero => intro i st; rfl
  | succ fuel ih =>
    intro i st
    have hget : (xs ++ b)[xs.length + i]? = b[i]? := by
      rw [List.getElem?_append_right (by omega)]
      congr 1
      omega
    cases hop : b[i]? with
    | none => rw [evalGo_done _ _ _ _ (hget.trans hop), evalGo_done _ _ _ _ hop]
    | some op =>
      have hg : (xs ++ b)[xs.length + i]? = some op := hget.trans hop
      have hmem : op ∈ b := List.getElem?_mem hop
      cases op with
      | Push n =>
        rw [evalGo_push _ _ _ _ _ hg, evalGo_push _ _ _ _ _ hop]
        exact ih (i + 1) _
      | Add =>
        rw [evalGo_stackOp _ _ _ _ _ _ hg rfl, evalGo_stackOp _ _ _ _ _ _ hop rfl]
        exact stepStack_congr _ _ _ _ (fun s => ih (i + 1) s)
      | Subtract =>
        rw [evalGo_stackOp _ _ _ _ _ _ hg rfl, evalGo_stackOp _ _ _ _ _ _ hop rfl]
        exact stepStack_congr _ _ _ _ (fun s => ih (i + 1) s)
      | Multiply =>
        rw [evalGo_stackOp _ _ _ _ _ _ hg rfl, evalGo_stackOp _ _ _ _ _ _ hop rfl]
        exact stepStack_congr _ _ _ _ (fun s => ih (i + 1) s)
      | Divide =>
        rw [evalGo_stackOp _ _ _ _ _ _ hg rfl, evalGo_stackOp _ _ _ _ _ _ hop rfl]
        exact stepStack_congr _ _ _ _ (fun s => ih (i + 1) s)
      | Mod =>
        rw [evalGo_stackOp _ _ _ _ _ _ hg rfl, evalGo_stackOp _ _ _ _ _ _ hop rfl]
        exact stepStack_congr _ _ _ _ (fun s => ih (i + 1) s)
      | Eq =>
        rw [evalGo_stackOp _ _ _ _ _ _ hg rfl, evalGo_stackOp _ _ _ _ _ _ hop rfl]
        exact stepStack_congr _ _ _ _ (fun s => ih (i + 1) s)
      | Lt =>
        rw [evalGo_stackOp _ _ _ _ _ _ hg rfl, evalGo_stackOp _ _ _ _ _ _ hop rfl]
        exact stepStack_congr _ _ _ _ (fun s => ih (i + 1) s)
      | Gt =>
        rw [evalGo_stackOp _ _ _ _ _ _ hg rfl, evalGo_stackOp _ _ _ _ _ _ hop rfl]
        exact stepStack_congr _ _ _ _ (fun s => ih (i + 1) s)
      | Dup =>
        rw [evalGo_stackOp _ _ _ _ _ _ hg rfl, evalGo_stackOp _ _ _ _ _ _ hop rfl]
        exact stepStack_congr _ _ _ _ (fun s => ih (i + 1) s)
      | Drop =>
        rw [evalGo_stackOp _ _ _ _ _ _ hg rfl, evalGo_stackOp _ _ _ _ _ _ hop rfl]
        exact stepStack_congr _ _ _ _ (fun s => ih (i + 1) s)
      | Swap =>
        rw [evalGo_stackOp _ _ _ _ _ _ hg rfl, evalGo_stackOp _ _ _ _ _ _ hop rfl]
        exact stepStack_congr _ _ _ _ (fun s => ih (i + 1) s)
      | Over =>
        rw [evalGo_stackOp _ _ _ _ _ _ hg rfl, evalGo_stackOp _ _ _ _ _ _ hop rfl]
        exact stepStack_congr _ _ _ _ (fun s => ih (i + 1) s)
      | Rot =>
        rw [evalGo_stackOp _ _ _ _ _ _ hg rfl, evalGo_stackOp _ _ _ _ _ _ hop rfl]
        exact stepStack_congr _ _ _ _ (fun s => ih (i + 1) s)
      | QDup =>
        rw [evalGo_stackOp _ _ _ _ _ _ hg rfl, evalGo_stackOp _ _ _ _ _ _ hop rfl]
        exact stepStack_congr _ _ _ _ (fun s => ih (i + 1) s)
      | TwoDup =>
        rw [evalGo_stackOp _ _ _ _ _ _ hg rfl, evalGo_stackOp _ _ _ _ _ _ hop rfl]
        exact stepStack_congr _ _ _ _ (fun s => ih (i + 1) s)
      | TwoDrop =>
        rw [evalGo_stackOp _ _ _ _ _ _ hg rfl, evalGo_stackOp _ _ _ _ _ _ hop rfl]
        exact stepStack_congr _ _ _ _ (fun s => ih (i + 1) s)
      | TwoSwap =>
        rw [evalGo_stackOp _ _ _ _ _ _ hg rfl, evalGo_stackOp _ _ _ _ _ _ hop rfl]
        exact stepStack_congr _ _ _ _ (fun s => ih (i + 1) s)
      | TwoOver =>
        rw [evalGo_stackOp _ _ _ _ _ _ hg rfl, evalGo_stackOp _ _ _ _ _ _ hop rfl]
        exact stepStack_congr _ _ _ _ (fun s => ih (i + 1) s)
      | MinusRot =>
        rw [evalGo_stackOp _ _ _ _ _ _ hg rfl, evalGo_stackOp _ _ _ _ _ _ hop rfl]
        exact stepStack_congr _ _ _ _ (fun s => ih (i + 1) s)
      | Print =>
        cases hs : st.stack with
        | nil => rw [evalGo_print_nil _ _ _ _ hg hs, evalGo_print_nil _ _ _ _ hop hs]
        | cons x rest =>
          rw [evalGo_print_cons _ _ _ _ _ _ hg hs, evalGo_print_cons _ _ _ _ _ _ hop hs]
          exact ih (i + 1) _
      | PrintStack =>
        rw [evalGo_printStack _ _ _ _ hg, evalGo_printStack _ _ _ _ hop]
        exact ih (i + 1) _
      | Define name body =>
        rw [evalGo_define _ _ _ _ _ _ hg, evalGo_define _ _ _ _ _ _ hop]
        exact ih (i + 1) _
      | I =>
        cases hl : st.loopControl with
        | nil => rw [evalGo_i_nil _ _ _ _ hg hl, evalGo_i_nil _ _ _ _ hop hl]
        | cons p l =>
          obtain ⟨r, ix, lim⟩ := p
          rw [evalGo_i_cons _ _ _ _ _ _ _ _ hg hl, evalGo_i_cons _ _ _ _ _ _ _ _ hop hl]
          exact ih (i + 1) _
      | Word s =>
        cases hc : (["if", "else", "then", "do", "loop", "i"] : List String).contains (strLower s) with
        | true =>
          rw [evalGo_word_control _ _ _ _ _ hg hc, evalGo_word_control _ _ _ _ _ hop hc]
        | false =>
          cases hd : dictFind st.dictionary (strUpper s) with
          | none =>
            rw [evalGo_word_unknown _ _ _ _ _ hg hc hd, evalGo_word_unknown _ _ _ _ _ hop hc hd]
          | some body =>
            rw [evalGo_word_found _ _ _ _ _ _ hg hc hd, evalGo_word_found _ _ _ _ _ _ hop hc hd]
            cases hres : evalGo fuel body 0 st with
            | none => rfl
            | some r =>
              cases r with
              | err e st' => rfl
              | ok st' => exact ih (i + 1) st'
      | IfElse thenOps elseOps =>
        cases hs : st.stack with
        | nil => rw [evalGo_ifElse_nil _ _ _ _ _ _ hg hs, evalGo_ifElse_nil _ _ _ _ _ _ hop hs]
        | cons flag rest =>
          rw [evalGo_ifElse_cons _ _ _ _ _ _ _ _ hg hs, evalGo_ifElse_cons _ _ _ _ _ _ _ _ hop hs]
          cases hres : evalGo fuel (if flag ≠ 0 then thenOps else elseOps) 0 { st with stack := rest } with
          | none => rfl
          | some r =>
            cases r with
            | err e st' => rfl
            | ok st' => exact ih (i + 1) st'
      | Do => exact absurd rfl (hb _ hmem).1
      | Loop => exact absurd rfl (hb _ hmem).2


theorem lt_length_of_getElem?_some {α : Type} (l : List α) (n : Nat) (a : α)
    (h : l[n]? = some a) : n < l.length := by
  by_contra hc
  rw [List.getElem?_eq_none (by omega)] at h
  exact Option.noConfusion h

/-- Failure insulation: if evaluating `pre` (containing no top-level `Do`
or `Loop`, whose forward scan / backward jump could reach into the
appended code) fails with error `e` in state `st'`, then evaluating
`pre ++ more` from the same point fails identically — the operations after
the failing one are never executed and the mutations already performed
(including the failing operation's own pops) are exactly those of `st'`. -/
theorem evalGo_extend (pre more : List ForthOp)
    (hp : ∀ op ∈ pre, op ≠ ForthOp.Do ∧ op ≠ ForthOp.Loop) :
    ∀ fuel idx st e st', evalGo fuel pre idx st = some (.err e st') →
      evalGo fuel (pre ++ more) idx st = some (.err e st') := by
  intro fuel
  induction fuel with
  | zero => intro idx st e st' h; exact Option.noConfusion h
  | succ fuel ih =>
    intro idx st e st' h
    cases hop : pre[idx]? with
    | none => rw [evalGo_done _ _ _ _ hop] at h; simp at h
    | some op =>
      have hlt : idx < pre.length := lt_length_of_getElem?_some _ _ _ hop
      have hg : (pre ++ more)[idx]? = some op := (List.getElem?_append_left hlt).trans hop
      have hmem : op ∈ pre := List.getElem?_mem hop
      cases op with
      | Push n =>
        rw [evalGo_push _ _ _ _ _ hop] at h
        rw [evalGo_push _ _ _ _ _ hg]
        exact ih _ _ _ _ h
      | Add =>
        rw [evalGo_stackOp _ _ _ _ _ _ hop rfl] at h
        rw [evalGo_stackOp _ _ _ _ _ _ hg rfl]
        cases hr : number_ops.add st.stack with
        | error p =>
          simp only [stepStack, hr] at h ⊢; exact h
        | ok s =>
          simp only [stepStack, hr] at h ⊢; exact ih _ _ _ _ h
      | Subtract =>
        rw [evalGo_stackOp _ _ _ _ _ _ hop rfl] at h
        rw [evalGo_stackOp _ _ _ _ _ _ hg rfl]
        cases hr : number_ops.subtract st.stack with
        | error p => simp only [stepStack, hr] at h ⊢; exact h
        | ok s => simp only [stepStack, hr] at h ⊢; exact ih _ _ _ _ h
      | Multiply =>
        rw [evalGo_stackOp _ _ _ _ _ _ hop rfl] at h
        rw [evalGo_stackOp _ _ _ _ _ _ hg rfl]
        cases hr : number_ops.multiply st.stack with
        | error p => simp only [stepStack, hr] at h ⊢; exact h
        | ok s => simp only [stepStack, hr] at h ⊢; exact ih _ _ _ _ h
      | Divide =>
        rw [evalGo_stackOp _ _ _ _ _ _ hop rfl] at h
        rw [evalGo_stackOp _ _ _ _ _ _ hg rfl]
        cases hr : number_ops.divide st.stack with
        | error p => simp only [stepStack, hr] at h ⊢; exact h
        | ok s => simp only [stepStack, hr] at h ⊢; exact ih _ _ _ _ h
      | Mod =>
        rw [evalGo_stackOp _ _ _ _ _ _ hop rfl] at h
        rw [evalGo_stackOp _ _ _ _ _ _ hg rfl]
        cases hr : number_ops.mod_op st.stack with
        | error p => simp only [stepStack, hr] at h ⊢; exact h
        | ok s => simp only [stepStack, hr] at h ⊢; exact ih _ _ _ _ h
      | Eq =>
        rw [evalGo_stackOp _ _ _ _ _ _ hop rfl] at h
        rw [evalGo_stackOp _ _ _ _ _ _ hg rfl]
        cases hr : number_ops.eq st.stack with
        | error p => simp only [stepStack, hr] at h ⊢; exact h
        | ok s => simp only [stepStack, hr] at h ⊢; exact ih _ _ _ _ h
      | Lt =>
        rw [evalGo_stackOp _ _ _ _ _ _ hop rfl] at h
        rw [evalGo_stackOp _ _ _ _ _ _ hg rfl]
        cases hr : number_ops.lt st.stack with
        | error p => simp only [stepStack, hr] at h ⊢; exact h
        | ok s => simp only [stepStack, hr] at h ⊢; exact ih _ _ _ _ h
      | Gt =>
        rw [evalGo_stackOp _ _ _ _ _ _ hop rfl] at h
        rw [evalGo_stackOp _ _ _ _ _ _ hg rfl]
        cases hr : number_ops.gt st.stack with
        | error p => simp only [stepStack, hr] at h ⊢; exact h
        | ok s => simp only [stepStack, hr] at h ⊢; exact ih _ _ _ _ h
      | Dup =>
        rw [evalGo_stackOp _ _ _ _ _ _ hop rfl] at h
        rw [evalGo_stackOp _ _ _ _ _ _ hg rfl]
        cases hr : stack_ops.dup st.stack with
        | error p => simp only [stepStack, hr] at h ⊢; exact h
        | ok s => simp only [stepStack, hr] at h ⊢; exact ih _ _ _ _ h
      | Drop =>
        rw [evalGo_stackOp _ _ _ _ _ _ hop rfl] at h
        rw [evalGo_stackOp _ _ _ _ _ _ hg rfl]
        cases hr : stack_ops.drop_ st.stack with
        | error p => simp only [stepStack, hr] at h ⊢; exact h
        | ok s => simp only [stepStack, hr] at h ⊢; exact ih _ _ _ _ h
      | Swap =>
        rw [evalGo_stackOp _ _ _ _ _ _ hop rfl] at h
        rw [evalGo_stackOp _ _ _ _ _ _ hg rfl]
        cases hr : stack_ops.swap st.stack with
        | error p => simp only [stepStack, hr] at h ⊢; exact h
        | ok s => simp only [stepStack, hr] at h ⊢; exact ih _ _ _ _ h
      | Over =>
        rw [evalGo_stackOp _ _ _ _ _ _ hop rfl] at h
        rw [evalGo_stackOp _ _ _ _ _ _ hg rfl]
        cases hr : stack_ops.over st.stack with
        | error p => simp only [stepStack, hr] at h ⊢; exact h
        | ok s => simp only [stepStack, hr] at h ⊢; exact ih _ _ _ _ h
      | Rot =>
        rw [evalGo_stackOp _ _ _ _ _ _ hop rfl] at h
        rw [evalGo_stackOp _ _ _ _ _ _ hg rfl]
        cases hr : stack_ops.rot st.stack with
        | error p => simp only [stepStack, hr] at h ⊢; exact h
        | ok s => simp only [stepStack, hr] at h ⊢; exact ih _ _ _ _ h
      | QDup =>
        rw [evalGo_stackOp _ _ _ _ _ _ hop rfl] at h
        rw [evalGo_stackOp _ _ _ _ _ _ hg rfl]
        cases hr : stack_ops.q_dup st.stack with
        | error p => simp only [stepStack, hr] at h ⊢; exact h
        | ok s => simp only [stepStack, hr] at h ⊢; exact ih _ _ _ _ h
      | TwoDup =>
        rw [evalGo_stackOp _ _ _ _ _ _ hop rfl] at h
        rw [evalGo_stackOp _ _ _ _ _ _ hg rfl]
        cases hr : stack_ops.two_dup st.stack with
        | error p => simp only [stepStack, hr] at h ⊢; exact h
        | ok s => simp only [stepStack, hr] at h ⊢; exact ih _ _ _ _ h
      | TwoDrop =>
        rw [evalGo_stackOp _ _ _ _ _ _ hop rfl] at h
        rw [evalGo_stackOp _ _ _ _ _ _ hg rfl]
        cases hr : stack_ops.two_drop st.stack with
        | error p => simp only [stepStack, hr] at h ⊢; exact h
        | ok s => simp only [stepStack, hr] at h ⊢; exact ih _ _ _ _ h
      | TwoSwap =>
        rw [evalGo_stackOp _ _ _ _ _ _ hop rfl] at h
        rw [evalGo_stackOp _ _ _ _ _ _ hg rfl]
        cases hr : stack_ops.two_swap st.stack with
        | error p => simp only [stepStack, hr] at h ⊢; exact h
        | ok s => simp only [stepStack, hr] at h ⊢; exact ih _ _ _ _ h
      | TwoOver =>
        rw [evalGo_stackOp _ _ _ _ _ _ hop rfl] at h
        rw [evalGo_stackOp _ _ _ _ _ _ hg rfl]
        cases hr : stack_ops.two_over st.stack with
        | error p => simp only [stepStack, hr] at h ⊢; exact h
        | ok s => simp only [stepStack, hr] at h ⊢; exact ih _ _ _ _ h
      | MinusRot =>
        rw [evalGo_stackOp _ _ _ _ _ _ hop rfl] at h
        rw [evalGo_stackOp _ _ _ _ _ _ hg rfl]
        cases hr : stack_ops.minus_rot st.stack with
        | error p => simp only [stepStack, hr] at h ⊢; exact h
        | ok s => simp only [stepStack, hr] at h ⊢; exact ih _ _ _ _ h
      | Print =>
        cases hs : st.stack with
        | nil =>
          rw [evalGo_print_nil _ _ _ _ hop hs] at h
          rw [evalGo_print_nil _ _ _ _ hg hs]
          exact h
        | cons x rest =>
          rw [evalGo_print_cons _ _ _ _ _ _ hop hs] at h
          rw [evalGo_print_cons _ _ _ _ _ _ hg hs]
          exact ih _ _ _ _ h
      | PrintStack =>
        rw [evalGo_printStack _ _ _ _ hop] at h
        rw [evalGo_printStack _ _ _ _ hg]
        exact ih _ _ _ _ h
      | Define name body =>
        rw [evalGo_define _ _ _ _ _ _ hop] at h
        rw [evalGo_define _ _ _ _ _ _ hg]
        exact ih _ _ _ _ h
      | I =>
        cases hl : st.loopControl with
        | nil =>
          rw [evalGo_i_nil _ _ _ _ hop hl] at h
          rw [evalGo_i_nil _ _ _ _ hg hl]
          exact h
        | cons p l =>
          obtain ⟨r, ix, lim⟩ := p
          rw [evalGo_i_cons _ _ _ _ _ _ _ _ hop hl] at h
          rw [evalGo_i_cons _ _ _ _ _ _ _ _ hg hl]
          exact ih _ _ _ _ h
      | Word s =>
        cases hc : (["if", "else", "then", "do", "loop", "i"] : List String).contains (strLower s) with
        | true =>
          rw [evalGo_word_control _ _ _ _ _ hop hc] at h
          rw [evalGo_word_control _ _ _ _ _ hg hc]
          exact h
        | false =>
          cases hd : dictFind st.dictionary (strUpper s) with
          | none =>
            rw [evalGo_word_unknown _ _ _ _ _ hop hc hd] at h
            rw [evalGo_word_unknown _ _ _ _ _ hg hc hd]
            exact h
          | some body =>
            rw [evalGo_word_found _ _ _ _ _ _ hop hc hd] at h
            rw [evalGo_word_found _ _ _ _ _ _ hg hc hd]
            cases hres : evalGo fuel body 0 st with
            | none => simp only [hres] at h; exact Option.noConfusion h
            | some r =>
              cases r with
              | err e2 st2 => simp only [hres] at h ⊢; exact h
              | ok st2 => simp only [hres] at h ⊢; exact ih _ _ _ _ h
      | IfElse thenOps elseOps =>
        cases hs : st.stack with
        | nil =>
          rw [evalGo_ifElse_nil _ _ _ _ _ _ hop hs] at h
          rw [evalGo_ifElse_nil _ _ _ _ _ _ hg hs]
          exact h
        | cons flag rest =>
          rw [evalGo_ifElse_cons _ _ _ _ _ _ _ _ hop hs] at h
          rw [evalGo_ifElse_cons _ _ _ _ _ _ _ _ hg hs]
          cases hres : evalGo fuel (if flag ≠ 0 then thenOps else elseOps) 0 { st with stack := rest } with
          | none => simp only [hres] at h; exact Option.noConfusion h
          | some r =>
            cases r with
            | err e2 st2 => simp only [hres] at h ⊢; exact h
            | ok st2 => simp only [hres] at h ⊢; exact ih _ _ _ _ h
      | Do => exact absurd rfl (hp _ hmem).1
      | Loop => exact absurd rfl (hp _ hmem).2



/-- The ascending list of loop indices `[i, i+1, ..., limit-1]` (empty when
`i ≥ limit`): the indices for which a counted `DO ... LOOP` body runs. -/
def intRange (i limit : Int) : List Int :=
  (List.range (limit - i).toNat).map (fun (k : Nat) => i + (k : Int))

theorem intRange_nil (i limit : Int) (h : limit ≤ i) : intRange i limit = [] := by
  unfold intRange
  rw [show (limit - i).toNat = 0 by omega]
  rfl

theorem intRange_cons (i limit : Int) (h : i < limit) :
    intRange i limit = i :: intRange (i + 1) limit := by
  unfold intRange
  rw [show (limit - i).toNat = (limit - (i + 1)).toNat + 1 by omega, List.range_succ_eq_map]
  simp only [List.map_cons, List.map_map]
  congr 1
  · push_cast
    ring
  · refine List.map_congr_left ?_
    intro k _
    simp only [Function.comp_apply]
    push_cast
    ring

/-- The single-loop program `DO I LOOP` as an operation list. -/
def doILoop : List ForthOp := [ForthOp.Do, ForthOp.I, ForthOp.Loop]

/-- Iterations of `DO I LOOP` from the top of the loop body: with the
active frame `(1, i, limit)` and `i < limit`, the remaining iterations
push `i, i+1, ..., limit-1` in order and finally pop the frame. -/
theorem loopI_run : ∀ (n : Nat) (i limit : Int) (s : List Int) (d : Dict)
    (l : List (Nat × Int × Int)), (limit - i).toNat = n + 1 →
    evalGo (2 * (n + 1) + 1) doILoop 1 ⟨s, d, (1, i, limit) :: l⟩ =
      some (.ok ⟨(intRange i limit).reverse ++ s, d, l⟩) := by
  intro n
  induction n with
  | zero =>
    intro i limit s d l hn
    have h1 : limit = i + 1 := by omega
    subst h1
    rw [show 2 * (0 + 1) + 1 = 3 from rfl]
    rw [evalGo_i_cons 2 doILoop 1 _ 1 i (i + 1) l rfl rfl]
    rw [evalGo_loop_cons 1 doILoop 2 _ 1 i (i + 1) l rfl rfl]
    rw [if_pos (by omega : i + 1 ≤ i + 1)]
    rw [evalGo_done 0 doILoop 3 _ rfl]
    rw [intRange_cons i (i + 1) (by omega), intRange_nil (i + 1) (i + 1) le_rfl]
    rfl
  | succ m ihm =>
    intro i limit s d l hn
    rw [show 2 * (m + 1 + 1) + 1 = (2 * (m + 1) + 1) + 1 + 1 by ring]
    rw [evalGo_i_cons _ doILoop 1 _ 1 i limit l rfl rfl]
    rw [evalGo_loop_cons _ doILoop 2 _ 1 i limit l rfl rfl]
    rw [if_neg (by omega : ¬ limit ≤ i + 1)]
    rw [ihm (i + 1) limit (i :: s) d l (by omega)]
    rw [intRange_cons i limit (by omega), List.reverse_cons, List.append_assoc]
    rfl

/-- Full run of `DO I LOOP` on stack `start :: limit :: rest`: both the
zero-iteration case (`start ≥ limit`, jump past the `LOOP`) and the
entering case are covered; the pushed values are exactly
`intRange start limit`, topmost last. -/
theorem doILoop_run (start limit : Int) (rest : List Int) (d : Dict)
    (l : List (Nat × Int × Int)) :
    evalGo (2 * (limit - start).toNat + 2) doILoop 0 ⟨start :: limit :: rest, d, l⟩ =
      some (.ok ⟨(intRange start limit).reverse ++ rest, d, l⟩) := by
  rcases hn : (limit - start).toNat with _ | m
  · rw [show 2 * 0 + 2 = 0 + 1 + 1 by ring]
    rw [evalGo_do_cons _ doILoop 0 _ start limit rest rfl rfl]
    rw [if_pos (by omega : limit ≤ start)]
    rw [show find_matching_end doILoop 0 ForthOp.Do ForthOp.Loop = .ok 3 from rfl]
    rw [intRange_nil start limit (by omega)]
    rfl
  · rw [show 2 * (m + 1) + 2 = (2 * (m + 1) + 1) + 1 by ring]
    rw [evalGo_do_cons _ doILoop 0 _ start limit rest rfl rfl]
    rw [if_neg (by omega : ¬ limit ≤ start)]
    exact loopI_run m start limit rest d l hn


theorem parse_token_to_op_word_isSome (s : String) :
    (parse_token_to_op (.Word s)).isSome = true := by
  unfold parse_token_to_op
  split
  all_goals first
  | rfl
  | (split <;> rfl)

/-- One body token that the compile-mode loop of `parse` consumes without
error and without closing the definition: trivia, an integer, or a word
other than `if` (with `loop` only legal at positive loop depth).  Returns
the updated loop depth. -/
def plainTok : Token → Nat → Option Nat
  | .Whitespace, d => some d
  | .Comment, d => some d
  | .LineComment, d => some d
  | .Integer _, d => some d
  | .Word w, d =>
    if strLower w = "if" then none
    else if strLower w = "do" then some (d + 1)
    else if strLower w = "loop" then (if d = 0 then none else some (d - 1))
    else some d
  | _, _ => none

/-- A definition-body prefix that the parser consumes entirely while
staying in compile mode: no conditional opener, no unmatched loop-end, no
colon or semicolon. -/
def bodyOk : List Token → Nat → Bool
  | [], _ => true
  | t :: ts, d =>
    match plainTok t d with
    | some d' => bodyOk ts d'
    | none => false

/-- Running the compile-mode loop of `parse` over a `bodyOk` body prefix
always ends at end of input still compiling, hence in
`UnterminatedDefinition`, whatever was accumulated so far. -/
theorem parseGo_bodyOk : ∀ (body : List Token) (fuel : Nat) (name : String)
    (defBody : List ForthOp) (depth : Nat) (ops : List ForthOp),
    bodyOk body depth = true → body.length < fuel →
    parseGo fuel body true (some name) defBody depth ops =
      some (.error .UnterminatedDefinition) := by
  intro body
  induction body with
  | nil =>
    intro fuel name defBody depth ops _ hf
    cases fuel with
    | zero => omega
    | succ f => simp [parseGo]
  | cons t ts ih =>
    intro fuel name defBody depth ops hok hf
    cases fuel with
    | zero => omega
    | succ f =>
      cases t with
      | Whitespace =>
        simp only [bodyOk, plainTok] at hok
        simp only [parseGo]
        exact ih f name defBody depth ops hok (by simpa using hf)
      | Comment =>
        simp only [bodyOk, plainTok] at hok
        simp only [parseGo]
        exact ih f name defBody depth ops hok (by simpa using hf)
      | LineComment =>
        simp only [bodyOk, plainTok] at hok
        simp only [parseGo]
        exact ih f name defBody depth ops hok (by simpa using hf)
      | Colon => simp [bodyOk, plainTok] at hok
      | Semicolon => simp [bodyOk, plainTok] at hok
      | Integer n =>
        simp only [bodyOk, plainTok] at hok
        simp only [parseGo, parse_token_to_op]
        exact ih f name _ depth ops hok (by simpa using hf)
      | Word w =>
        by_cases h1 : strLower w = "if"
        · simp [bodyOk, plainTok, h1] at hok
        · by_cases h2 : strLower w = "do"
          · simp only [bodyOk, plainTok, h1, h2, if_neg, if_pos, if_false, if_true] at hok
            simp only [parseGo, h1, h2, if_neg, if_pos, if_false, if_true]
            exact ih f name _ (depth + 1) ops (by simpa using hok) (by simpa using hf)
          · by_cases h3 : strLower w = "loop"
            · by_cases h0 : depth = 0
              · simp [bodyOk, plainTok, h1, h2, h3, h0] at hok
              · simp only [bodyOk, plainTok, h1, h2, h3, h0, if_neg, if_pos, if_false,
                  if_true] at hok
                simp only [parseGo, h1, h2, h3, h0, if_neg, if_pos, if_false, if_true]
                exact ih f name _ (depth - 1) ops (by simpa using hok) (by simpa using hf)
            · by_cases h4 : strLower w = "i"
              · simp only [bodyOk, plainTok, h1, h2, h3, h4, if_neg, if_pos, if_false,
                  if_true] at hok
                simp only [parseGo, h1, h2, h3, h4, if_neg, if_pos, if_false, if_true]
                exact ih f name _ depth ops (by simpa using hok) (by simpa using hf)
              · simp only [bodyOk, plainTok, h1, h2, h3, h4, if_neg, if_pos, if_false,
                  if_true] at hok
                obtain ⟨op, hpt⟩ := Option.isSome_iff_exists.mp (parse_token_to_op_word_isSome w)
                simp only [parseGo, h1, h2, h3, h4, hpt, if_neg, if_pos, if_false, if_true]
                exact ih f name _ depth ops (by simpa using hok) (by simpa using hf)



/-- Helper for C3: looking up the key just inserted returns the new body
(`HashMap::insert` then `get`). -/
theorem dictFind_insert_self (d : Dict) (k : String) (v : List ForthOp) :
    dictFind (dictInsert d k v) k = some v := by
  simp [dictFind, dictInsert, List.find?]

/-- Evaluation of `ops` from a state `st` can terminate with outcome `r`
(some amount of fuel suffices). -/
def evalTerm (ops : List ForthOp) (st : EvalState) (r : EvalResult) : Prop :=
  ∃ fuel, evalGo fuel ops 0 st = some r

/-- C1: the loop-start operation pops `start` first and `limit` second; if
`start ≥ limit` control jumps to just after the matching loop-end (the
body runs zero times), otherwise the frame
`(body-entry-point, start, limit)` is pushed; a `DO I LOOP` run pushes one
index per iteration from `start` up to `limit - 1`; in particular a loop
from 0 to 5 pushing the index each iteration leaves `0 1 2 3 4` on the
stack (topmost last, i.e. list head `4` in this embedding's
top-at-head representation). -/
theorem C1_do_loop (fuel : Nat) :
    (∀ (ops : List ForthOp) (idx : Nat) (st : EvalState) (start limit : Int)
        (rest : List Int), ops[idx]? = some ForthOp.Do → st.stack = start :: limit :: rest →
      evalGo (fuel + 1) ops idx st =
        if limit ≤ start then
          match find_matching_end ops idx .Do .Loop with
          | .error e => some (.err e { st with stack := rest })
          | .ok nxt => evalGo fuel ops nxt { st with stack := rest }
        else
          evalGo fuel ops (idx + 1)
            { st with stack := rest, loopControl := (idx + 1, start, limit) :: st.loopControl })
    ∧ (∀ (start limit : Int) (rest : List Int) (d : Dict) (l : List (Nat × Int × Int)),
        evalGo (2 * (limit - start).toNat + 2) doILoop 0 ⟨start :: limit :: rest, d, l⟩ =
          some (.ok ⟨(intRange start limit).reverse ++ rest, d, l⟩))
    ∧ find_matching_end doILoop 0 ForthOp.Do ForthOp.Loop = .ok 3
    ∧ intRange 0 5 = [0, 1, 2, 3, 4]
    ∧ evalGo 30 [ForthOp.Push 5, ForthOp.Push 0, ForthOp.Do, ForthOp.I, ForthOp.Loop] 0
        ⟨[], [], []⟩ = some (.ok ⟨[4, 3, 2, 1, 0], [], []⟩)
    ∧ evalGo 30 [ForthOp.Push 0, ForthOp.Push 5, ForthOp.Do, ForthOp.I, ForthOp.Loop] 0
        ⟨[], [], []⟩ = some (.ok ⟨[], [], []⟩) := by
  refine ⟨?_, doILoop_run, rfl, by decide, rfl, rfl⟩
  intro ops idx st start limit rest h hs
  exact evalGo_do_cons fuel ops idx st start limit rest h hs

/-- C1 witness: the loop-start step at a concrete input (`start 0`,
`limit 5`): both values are popped and the frame `(1, 0, 5)` is pushed. -/
theorem C1_do_loop_witness :
    evalGo 1 [ForthOp.Do] 0 ⟨[0, 5], [], []⟩ = evalGo 0 [ForthOp.Do] 1 ⟨[], [], [(1, 0, 5)]⟩ := by
  have h := (C1_do_loop 0).1 [ForthOp.Do] 0 ⟨[0, 5], [], []⟩ 0 5 [] rfl rfl
  rw [if_neg (by decide : ¬ (5 : Int) ≤ 0)] at h
  exact h

/-- C2 counterexample: on the one-element stack `[0]` (whose top value is
zero) both division and modulo fail with `StackUnderflow`, not with the
division-by-zero condition: the second pop fails before the zero-divisor
check is reached. -/
theorem C2_div_zero_counterexample :
    evalGo 1 [ForthOp.Divide] 0 ⟨[0], [], []⟩ = some (.err .StackUnderflow ⟨[], [], []⟩)
    ∧ evalGo 1 [ForthOp.Mod] 0 ⟨[0], [], []⟩ = some (.err .StackUnderflow ⟨[], [], []⟩)
    ∧ EvalError.StackUnderflow ≠ EvalError.DivisionByZero := ⟨rfl, rfl, by decide⟩

/-- C2 (amended): on every stack of depth at least two whose top value is
zero, `Divide` and `Mod` each fail with the division-by-zero condition and
push no result (the final stack is the input stack minus the two popped
operands). -/
theorem C2_div_zero (a : Int) (rest : List Int) (d : Dict) (l : List (Nat × Int × Int)) :
    evalGo 1 [ForthOp.Divide] 0 ⟨0 :: a :: rest, d, l⟩ =
      some (.err .DivisionByZero ⟨rest, d, l⟩)
    ∧ evalGo 1 [ForthOp.Mod] 0 ⟨0 :: a :: rest, d, l⟩ =
      some (.err .DivisionByZero ⟨rest, d, l⟩)
    ∧ number_ops.divide (0 :: a :: rest) = .error (.DivisionByZero, rest)
    ∧ number_ops.mod_op (0 :: a :: rest) = .error (.DivisionByZero, rest) :=
  ⟨rfl, rfl, rfl, rfl⟩

/-- C6: each binary comparison pops the first operand `b` and the second
operand `a` and pushes the single canonical boolean `-1` (all bits set)
when the comparison holds, `0` otherwise. -/
theorem C6_comparisons (a b : Int) (rest : List Int) (d : Dict)
    (l : List (Nat × Int × Int)) :
    evalGo 2 [ForthOp.Eq] 0 ⟨b :: a :: rest, d, l⟩ =
      some (.ok ⟨(if a = b then -1 else 0) :: rest, d, l⟩)
    ∧ evalGo 2 [ForthOp.Lt] 0 ⟨b :: a :: rest, d, l⟩ =
      some (.ok ⟨(if a < b then -1 else 0) :: rest, d, l⟩)
    ∧ evalGo 2 [ForthOp.Gt] 0 ⟨b :: a :: rest, d, l⟩ =
      some (.ok ⟨(if a > b then -1 else 0) :: rest, d, l⟩) :=
  ⟨rfl, rfl, rfl⟩

/-- C8: on a stack of depth at least two with top value zero, `Divide`
removes both operands and then fails with division-by-zero, so the error
state's stack is exactly two elements shorter than the input stack. -/
theorem C8_divide_not_atomic (a : Int) (rest : List Int) (d : Dict)
    (l : List (Nat × Int × Int)) :
    evalGo 1 [ForthOp.Divide] 0 ⟨0 :: a :: rest, d, l⟩ =
      some (.err .DivisionByZero ⟨rest, d, l⟩)
    ∧ (0 :: a :: rest : List Int).length = rest.length + 2 :=
  ⟨rfl, rfl⟩

/-- C10: conditional-duplicate pushes a copy of the top value exactly when
it is non-zero, leaves the stack unchanged when the top is zero, and fails
with stack underflow (stack untouched) when the stack is empty. -/
theorem C10_q_dup (x : Int) (rest : List Int) (d : Dict) (l : List (Nat × Int × Int)) :
    evalGo 2 [ForthOp.QDup] 0 ⟨x :: rest, d, l⟩ =
      some (.ok ⟨if x ≠ 0 then x :: x :: rest else x :: rest, d, l⟩)
    ∧ evalGo 2 [ForthOp.QDup] 0 ⟨[], d, l⟩ = some (.err .StackUnderflow ⟨[], d, l⟩)
    ∧ stack_ops.q_dup (x :: rest) = .ok (if x ≠ 0 then x :: x :: rest else x :: rest) :=
  ⟨rfl, rfl, rfl⟩


/-- C5: a failing evaluation stops at the failing operation — operations
appended after a failing sequence (without top-level loop markers, whose
jump targets could reach into the appended part) are never executed and
the error state is unchanged; and concretely, the mutations made before
the failure and the failing operation's own pops all remain in place, for
the operand stack, the dictionary, and the loop-control stack alike. -/
theorem C5_no_rollback :
    (∀ (pre more : List ForthOp), (∀ op ∈ pre, op ≠ ForthOp.Do ∧ op ≠ ForthOp.Loop) →
      ∀ (fuel idx : Nat) (st : EvalState) (e : EvalError) (st' : EvalState),
        evalGo fuel pre idx st = some (.err e st') →
        evalGo fuel (pre ++ more) idx st = some (.err e st'))
    ∧ evalGo 10 [ForthOp.Push 7, ForthOp.Push 1, ForthOp.Push 0, ForthOp.Divide,
        ForthOp.Push 99] 0 ⟨[], [], []⟩ = some (.err .DivisionByZero ⟨[7], [], []⟩)
    ∧ evalGo 10 [ForthOp.Define "X" [ForthOp.Push 1], ForthOp.Push 9, ForthOp.Word "ZZZ",
        ForthOp.Push 77] 0 ⟨[], [], []⟩ =
        some (.err (.UnknownWord "ZZZ") ⟨[9], [("X", [ForthOp.Push 1])], []⟩)
    ∧ evalGo 10 [ForthOp.Push 5, ForthOp.Push 0, ForthOp.Do, ForthOp.Add] 0 ⟨[], [], []⟩ =
        some (.err .StackUnderflow ⟨[], [], [(3, 0, 5)]⟩) :=
  ⟨fun pre more hp => evalGo_extend pre more hp, rfl, rfl, rfl⟩

/-- C5 witness: `Add` on an empty stack fails, and appending `Push 99`
after it changes nothing: the appended operation is never executed. -/
theorem C5_no_rollback_witness :
    evalGo 1 ([ForthOp.Add] ++ [ForthOp.Push 99]) 0 ⟨[], [], []⟩ =
      some (.err .StackUnderflow ⟨[], [], []⟩) :=
  C5_no_rollback.1 [ForthOp.Add] [ForthOp.Push 99] (by simp) 1 0 ⟨[], [], []⟩
    .StackUnderflow ⟨[], [], []⟩ rfl

/-- C7: the conditional pops exactly one value; a non-zero selector runs
only the then-branch and a zero selector only the (possibly empty)
else-branch, the selector being consumed either way; on an empty stack it
fails with stack underflow. -/
theorem C7_conditional :
    (∀ (fuel : Nat) (ops : List ForthOp) (idx : Nat) (st : EvalState)
        (thenOps elseOps : List ForthOp) (flag : Int) (rest : List Int),
      ops[idx]? = some (.IfElse thenOps elseOps) → st.stack = flag :: rest →
      evalGo (fuel + 1) ops idx st =
        match evalGo fuel (if flag ≠ 0 then thenOps else elseOps) 0
            { st with stack := rest } with
        | none => none
        | some (.err e st') => some (.err e st')
        | some (.ok st') => evalGo fuel ops (idx + 1) st')
    ∧ (∀ (fuel : Nat) (ops : List ForthOp) (idx : Nat) (st : EvalState)
        (thenOps elseOps : List ForthOp),
      ops[idx]? = some (.IfElse thenOps elseOps) → st.stack = [] →
      evalGo (fuel + 1) ops idx st = some (.err .StackUnderflow st))
    ∧ evalGo 3 [ForthOp.IfElse [ForthOp.Push 1] [ForthOp.Push 2]] 0 ⟨[7], [], []⟩ =
        some (.ok ⟨[1], [], []⟩)
    ∧ evalGo 3 [ForthOp.IfElse [ForthOp.Push 1] [ForthOp.Push 2]] 0 ⟨[0], [], []⟩ =
        some (.ok ⟨[2], [], []⟩)
    ∧ evalGo 3 [ForthOp.IfElse [ForthOp.Push 1] []] 0 ⟨[0], [], []⟩ =
        some (.ok ⟨[], [], []⟩)
    ∧ evalGo 3 [ForthOp.IfElse [ForthOp.Push 1] []] 0 ⟨[], [], []⟩ =
        some (.err .StackUnderflow ⟨[], [], []⟩) :=
  ⟨fun fuel ops idx st t e flag rest h hs => evalGo_ifElse_cons fuel ops idx st t e flag rest h hs,
   fun fuel ops idx st t e h hs => evalGo_ifElse_nil fuel ops idx st t e h hs,
   rfl, rfl, rfl, rfl⟩

/-- C7 witness: a concrete conditional step — selector `3` is non-zero, so
only the then-branch runs and the selector is consumed. -/
theorem C7_conditional_witness :
    evalGo 3 [ForthOp.IfElse [ForthOp.Push 5] [ForthOp.Push 6]] 0 ⟨[3], [], []⟩ =
      some (.ok ⟨[5], [], []⟩) := by
  have h := C7_conditional.1 2 [ForthOp.IfElse [ForthOp.Push 5] [ForthOp.Push 6]] 0
    ⟨[3], [], []⟩ [ForthOp.Push 5] [ForthOp.Push 6] 3 [] rfl rfl
  exact h.trans rfl

/-- C9: the loop-control stack is threaded unchanged into word dispatch
(the body is evaluated against the very same state, loop frames included)
and into loop-index reads, so `I` inside a user-defined word invoked from
a loop body pushes the caller's innermost loop index instead of failing
with loop-control-stack underflow — shown both in general step form and on
concrete programs (plain word call, and a conditional inside the word). -/
theorem C9_loop_stack_threaded :
    (∀ (fuel : Nat) (ops : List ForthOp) (idx : Nat) (st : EvalState) (s : String)
        (body : List ForthOp),
      ops[idx]? = some (.Word s) →
      (["if", "else", "then", "do", "loop", "i"] : List String).contains (strLower s) = false →
      dictFind st.dictionary (strUpper s) = some body →
      evalGo (fuel + 1) ops idx st =
        match evalGo fuel body 0 st with
        | none => none
        | some (.err e st') => some (.err e st')
        | some (.ok st') => evalGo fuel ops (idx + 1) st')
    ∧ (∀ (fuel : Nat) (ops : List ForthOp) (idx : Nat) (st : EvalState) (r : Nat)
        (i lim : Int) (l : List (Nat × Int × Int)),
      ops[idx]? = some .I → st.loopControl = (r, i, lim) :: l →
      evalGo (fuel + 1) ops idx st = evalGo fuel ops (idx + 1) { st with stack := i :: st.stack })
    ∧ evalGo 30 [ForthOp.Define "W" [ForthOp.I], ForthOp.Push 2, ForthOp.Push 0, ForthOp.Do,
        ForthOp.Word "W", ForthOp.Loop] 0 ⟨[], [], []⟩ =
        some (.ok ⟨[1, 0], [("W", [ForthOp.I])], []⟩)
    ∧ evalGo 30 [ForthOp.Define "W" [ForthOp.IfElse [ForthOp.I] []], ForthOp.Push 2,
        ForthOp.Push 0, ForthOp.Do, ForthOp.Push 1, ForthOp.Word "W", ForthOp.Loop] 0
        ⟨[], [], []⟩ =
        some (.ok ⟨[1, 0], [("W", [ForthOp.IfElse [ForthOp.I] []])], []⟩) :=
  ⟨fun fuel ops idx st s body h hc hd => evalGo_word_found fuel ops idx st s body h hc hd,
   fun fuel ops idx st r i lim l h hl => evalGo_i_cons fuel ops idx st r i lim l h hl,
   rfl, rfl⟩

/-- C9 witness: dispatching the word `W` (whose body is a bare `I`) with
an active loop frame of index 7 pushes 7 — the frame survives the word
call. -/
theorem C9_loop_stack_threaded_witness :
    evalGo 3 [ForthOp.Word "W"] 0 ⟨[], [("W", [ForthOp.I])], [(0, 7, 9)]⟩ =
      some (.ok ⟨[7], [("W", [ForthOp.I])], [(0, 7, 9)]⟩) := by
  have h := C9_loop_stack_threaded.1 2 [ForthOp.Word "W"] 0
    ⟨[], [("W", [ForthOp.I])], [(0, 7, 9)]⟩ "W" [ForthOp.I] rfl rfl rfl
  exact h.trans rfl


/-- C3 counterexample: define-then-invoke and inline evaluation can leave
DIFFERENT final operand stacks.  The body ends in an unmatched `Do`, and
the pre-existing word `W` contains an unmatched `Loop`: the loop frame
records the index after `Do` in whichever operation array was executing,
and `W`'s `Loop` jumps to that index inside `W`'s own body — index 3 when
the body ran as a standalone array (via the word call), index 4 when it
ran inline behind the `Define`.  Final stacks: `[40, 30]` versus `[40]`. -/
theorem C3_inline_counterexample :
    evalGo 20 [ForthOp.Define "N" [ForthOp.Push 2, ForthOp.Push 0, ForthOp.Do, ForthOp.Word "W"],
        ForthOp.Word "N"] 0
      ⟨[], [("W", [ForthOp.Loop, ForthOp.Push 10, ForthOp.Push 20, ForthOp.Push 30,
        ForthOp.Push 40])], []⟩ =
      some (.ok ⟨[40, 30],
        [("N", [ForthOp.Push 2, ForthOp.Push 0, ForthOp.Do, ForthOp.Word "W"]),
         ("W", [ForthOp.Loop, ForthOp.Push 10, ForthOp.Push 20, ForthOp.Push 30,
           ForthOp.Push 40])], [(3, 1, 2)]⟩)
    ∧ evalGo 20 ([ForthOp.Define "N" [ForthOp.Push 2, ForthOp.Push 0, ForthOp.Do,
        ForthOp.Word "W"]] ++ [ForthOp.Push 2, ForthOp.Push 0, ForthOp.Do, ForthOp.Word "W"]) 0
      ⟨[], [("W", [ForthOp.Loop, ForthOp.Push 10, ForthOp.Push 20, ForthOp.Push 30,
        ForthOp.Push 40])], []⟩ =
      some (.ok ⟨[40],
        [("N", [ForthOp.Push 2, ForthOp.Push 0, ForthOp.Do, ForthOp.Word "W"]),
         ("W", [ForthOp.Loop, ForthOp.Push 10, ForthOp.Push 20, ForthOp.Push 30,
           ForthOp.Push 40])], [(4, 1, 2)]⟩)
    ∧ ([40, 30] : List Int) ≠ [40] :=
  ⟨rfl, rfl, by decide⟩

/-- C3 (amended): for every stack, dictionary and body WITHOUT top-level
loop operations (`Do` / `Loop`, whose absolute jump indices the
counterexample exploits), defining an uppercase, non-reserved word and
invoking it terminates with exactly the same outcome — operand stack,
dictionary and loop-control stack — as running the body inline after the
definition; and the spec's concrete instance: defining DOUBLE as
`[push 2, multiply]`, then `push 10, word DOUBLE` yields stack `[20]`,
identical to evaluating `[push 10, push 2, multiply]`. -/
theorem C3_define_inline (N : String) (b : List ForthOp)
    (hb : ∀ op ∈ b, op ≠ ForthOp.Do ∧ op ≠ ForthOp.Loop)
    (hup : strUpper N = N)
    (hctl : (["if", "else", "then", "do", "loop", "i"] : List String).contains (strLower N)
      = false) :
    (∀ (st : EvalState) (r : EvalResult),
      evalTerm [ForthOp.Define N b, ForthOp.Word N] st r ↔
      evalTerm ([ForthOp.Define N b] ++ b) st r)
    ∧ evalGo 10 [ForthOp.Define "DOUBLE" [ForthOp.Push 2, ForthOp.Multiply], ForthOp.Push 10,
        ForthOp.Word "DOUBLE"] 0 ⟨[], [], []⟩ =
        some (.ok ⟨[20], [("DOUBLE", [ForthOp.Push 2, ForthOp.Multiply])], []⟩)
    ∧ evalGo 10 [ForthOp.Push 10, ForthOp.Push 2, ForthOp.Multiply] 0 ⟨[], [], []⟩ =
        some (.ok ⟨[20], [], []⟩) := by
  refine ⟨?_, rfl, rfl⟩
  intro st r
  have hd : dictFind (dictInsert st.dictionary N b) (strUpper N) = some b := by
    rw [hup]; exact dictFind_insert_self _ _ _
  constructor
  · rintro ⟨f, hf⟩
    cases f with
    | zero => exact Option.noConfusion hf
    | succ f1 =>
      rw [evalGo_define f1 [ForthOp.Define N b, ForthOp.Word N] 0 st N b rfl] at hf
      cases f1 with
      | zero => exact Option.noConfusion hf
      | succ f2 =>
        rw [evalGo_word_found f2 [ForthOp.Define N b, ForthOp.Word N] 1
          { st with dictionary := dictInsert st.dictionary N b } N b rfl hctl hd] at hf
        cases hres : evalGo f2 b 0 { st with dictionary := dictInsert st.dictionary N b } with
        | none => simp only [hres] at hf; exact Option.noConfusion hf
        | some r2 =>
          cases r2 with
          | err e st' =>
            simp only [hres] at hf
            refine ⟨f2 + 1, ?_⟩
            rw [evalGo_define f2 ([ForthOp.Define N b] ++ b) 0 st N b (by simp)]
            have hshift : evalGo f2 ([ForthOp.Define N b] ++ b) (0 + 1)
                { st with dictionary := dictInsert st.dictionary N b } =
                evalGo f2 b 0 { st with dictionary := dictInsert st.dictionary N b } :=
              evalGo_shift [ForthOp.Define N b] b hb f2 0 _
            rw [hshift, hres]
            exact hf
          | ok st' =>
            simp only [hres] at hf
            cases f2 with
            | zero => exact Option.noConfusion hres
            | succ f3 =>
              rw [evalGo_done f3 [ForthOp.Define N b, ForthOp.Word N] 2 st' rfl] at hf
              refine ⟨f3 + 1 + 1, ?_⟩
              rw [evalGo_define (f3 + 1) ([ForthOp.Define N b] ++ b) 0 st N b (by simp)]
              have hshift : evalGo (f3 + 1) ([ForthOp.Define N b] ++ b) (0 + 1)
                  { st with dictionary := dictInsert st.dictionary N b } =
                  evalGo (f3 + 1) b 0 { st with dictionary := dictInsert st.dictionary N b } :=
                evalGo_shift [ForthOp.Define N b] b hb (f3 + 1) 0 _
              rw [hshift, hres]
              exact hf
  · rintro ⟨f, hf⟩
    cases f with
    | zero => exact Option.noConfusion hf
    | succ f2 =>
      rw [evalGo_define f2 ([ForthOp.Define N b] ++ b) 0 st N b (by simp)] at hf
      have hshift : evalGo f2 ([ForthOp.Define N b] ++ b) (0 + 1)
          { st with dictionary := dictInsert st.dictionary N b } =
          evalGo f2 b 0 { st with dictionary := dictInsert st.dictionary N b } :=
        evalGo_shift [ForthOp.Define N b] b hb f2 0 _
      rw [hshift] at hf
      cases r with
      | err e st' =>
        refine ⟨f2 + 1 + 1, ?_⟩
        rw [evalGo_define (f2 + 1) [ForthOp.Define N b, ForthOp.Word N] 0 st N b rfl]
        rw [evalGo_word_found f2 [ForthOp.Define N b, ForthOp.Word N] 1
          { st with dictionary := dictInsert st.dictionary N b } N b rfl hctl hd]
        rw [hf]
      | ok st' =>
        cases f2 with
        | zero => exact Option.noConfusion hf
        | succ f3 =>
          refine ⟨f3 + 1 + 1 + 1, ?_⟩
          rw [evalGo_define (f3 + 1 + 1) [ForthOp.Define N b, ForthOp.Word N] 0 st N b rfl]
          rw [evalGo_word_found (f3 + 1) [ForthOp.Define N b, ForthOp.Word N] 1
            { st with dictionary := dictInsert st.dictionary N b } N b rfl hctl hd]
          rw [hf]
          exact evalGo_done f3 _ 2 st' rfl

/-- C3 witness: the amended equivalence applied at the concrete word `T`
with body `[push 2, multiply]` on initial stack `[10]`: the forward
direction transports the concrete define-then-invoke run to the inline
run. -/
theorem C3_define_inline_witness :
    evalTerm ([ForthOp.Define "T" [ForthOp.Push 2, ForthOp.Multiply]] ++
        [ForthOp.Push 2, ForthOp.Multiply]) ⟨[10], [], []⟩
      (.ok ⟨[20], [("T", [ForthOp.Push 2, ForthOp.Multiply])], []⟩) :=
  ((C3_define_inline "T" [ForthOp.Push 2, ForthOp.Multiply] (by simp) rfl rfl).1
    ⟨[10], [], []⟩ (.ok ⟨[20], [("T", [ForthOp.Push 2, ForthOp.Multiply])], []⟩)).mp
    ⟨5, rfl⟩

/-- C4 counterexample: the token sequence `: X loop` opens a definition
and never closes it, yet `parse` reports the malformed-structure error
`MismatchedDoLoop` (a loop-end with no loop-start), not the
incomplete-definition condition. -/
theorem C4_unterminated_counterexample :
    parse [Token.Colon, Token.Word "X", Token.Word "loop"] =
      some (.error .MismatchedDoLoop)
    ∧ ParseError.MismatchedDoLoop ≠ ParseError.UnterminatedDefinition :=
  ⟨rfl, by decide⟩

/-- C4 (amended): the incomplete-definition condition is distinct from
every malformed-input condition; a definition opener followed by any
well-formed, non-closing body prefix (integers, trivia, or words other
than the conditional opener, with every loop-end matched and no colon or
semicolon) parses to `UnterminatedDefinition`; and whenever a buffer that
parsed incomplete is extended so that the concatenation parses, the
incremental retry (buffer kept, concatenation re-parsed, as in the
front-end driver) returns exactly the batch-parse result. -/
theorem C4_incremental_parse :
    ((∀ t, ParseError.UnterminatedDefinition ≠ ParseError.UnexpectedToken t)
      ∧ ParseError.UnterminatedDefinition ≠ ParseError.ExpectedWordName
      ∧ ParseError.UnterminatedDefinition ≠ ParseError.NestedDefinitionNotSupported
      ∧ ParseError.UnterminatedDefinition ≠ ParseError.MismatchedDoLoop
      ∧ (∀ s, ParseError.UnterminatedDefinition ≠ ParseError.ControlWordOutsideDefinition s))
    ∧ (∀ (name : String) (body : List Token), bodyOk body 0 = true →
        parse (Token.Colon :: Token.Word name :: body) =
          some (.error .UnterminatedDefinition))
    ∧ (∀ (t1 t2 : List Token) (r : Except ParseError (List ForthOp)),
        parse t1 = some (.error .UnterminatedDefinition) →
        parse (t1 ++ t2) = some r →
        parseTwoChunks t1 t2 = some r) := by
  refine ⟨⟨fun t h => ParseError.noConfusion h, by decide, by decide, by decide,
    fun s h => ParseError.noConfusion h⟩, ?_, ?_⟩
  · intro name body hok
    unfold parse
    simp only [List.length_cons]
    simp only [parseGo]
    exact parseGo_bodyOk body _ _ [] 0 [] hok (by omega)
  · intro t1 t2 r h1 h2
    unfold parseTwoChunks
    rw [h1]
    exact h2

/-- C4 witness: `: T 1` parses incomplete; appending `;` and re-parsing
the concatenation (the front-end's retry) yields the definition of `T`,
the same as parsing the whole input at once. -/
theorem C4_incremental_parse_witness :
    bodyOk [Token.Integer 1] 0 = true
    ∧ parse [Token.Colon, Token.Word "T", Token.Integer 1] =
        some (.error .UnterminatedDefinition)
    ∧ parseTwoChunks [Token.Colon, Token.Word "T", Token.Integer 1] [Token.Semicolon] =
        some (.ok [ForthOp.Define "T" [ForthOp.Push 1]]) := by
  refine ⟨rfl, C4_incremental_parse.2.1 "T" [Token.Integer 1] rfl, ?_⟩
  exact C4_incremental_parse.2.2 [Token.Colon, Token.Word "T", Token.Integer 1]
    [Token.Semicolon] (.ok [ForthOp.Define "T" [ForthOp.Push 1]])
    (C4_incremental_parse.2.1 "T" [Token.Integer 1] rfl) rfl


end RForth
